import Mathlib

/-!
# WebShell: execution registry and lifecycle

A shallow embedding of `main.go`: the `Execution` record, the shared map
`InternalDB`, the three request handlers (`CommandRequest`, `CommandStatus`,
`CommandKill`), the runner `handleCommand` and one pass of the loop body of
`memoryCleaner`, followed by theorems about them.

Conventions of the embedding.

* `InternalDB : map[string]*Execution` is a finite map with unique keys.  A
  write through the pointer `InternalDB[key].F = v` is the replacement of the
  record stored under `key`.
* A `time.Time` is an integer number of nanoseconds on one time line; the zero
  `time.Time` is `0`.  `time.Duration` is a 64-bit signed number of nanoseconds
  and its arithmetic wraps.
* What the Go runtime or a library decides (the decoded request body, the
  identifier from `uuid.New()`, clock readings, what `CombinedOutput` and
  `Process.Kill` return) is an explicit argument.
* Every handler runs as one atomic step.  A nil dereference in the goroutine
  `handleCommand` has no successor state (`none`).
-/

namespace WebShell

/-! ## Data model -/

/-- A `time.Time`, in nanoseconds; `0` is the zero value. -/
abbrev Time := Int

/-- The `*exec.Cmd` built by `exec.CommandContext(ctx, Command, Args...)`. -/
structure Cmd where
  Path : String
  Args : List String
deriving DecidableEq, Repr

/-- The struct `Execution`; `process` is the unexported pointer field, `none` for nil. -/
structure Execution where
  Command : String
  Args : List String
  Output : String
  Code : Int
  Terminated : Bool
  Killed : Bool
  Started : Time
  Ended : Time
  process : Option Cmd
deriving DecidableEq, Repr

/-- The global `InternalDB`. -/
abbrev DB := AList (fun _ : String => Execution)

/-- The struct `AppConfiguration`. -/
structure AppConfiguration where
  Timeout : Int
  Programs : List String
  CacheTime : Int
deriving DecidableEq, Repr

/-- The struct `CommandRequestBody`. -/
structure CommandRequestBody where
  Command : String
  Args : List String
deriving DecidableEq, Repr

/-- The struct `CommandStatusBody`. -/
structure CommandStatusBody where
  Key : String
deriving DecidableEq, Repr

/-- The struct `CommandKillBody`. -/
structure CommandKillBody where
  Key : String
deriving DecidableEq, Repr

/-- What `json.Marshal` sees of an `Execution`: its exported fields. -/
structure Snapshot where
  Command : String
  Args : List String
  Output : String
  Code : Int
  Terminated : Bool
  Killed : Bool
  Started : Time
  Ended : Time
deriving DecidableEq, Repr

/-- The exported fields of a record. -/
def Execution.snapshot (e : Execution) : Snapshot :=
  { Command := e.Command, Args := e.Args, Output := e.Output, Code := e.Code,
    Terminated := e.Terminated, Killed := e.Killed, Started := e.Started, Ended := e.Ended }

/-- A response body: plain text, or the JSON of a record. -/
inductive Body where
  | text (s : String)
  | json (s : Snapshot)
deriving DecidableEq, Repr

/-- Status code and body written to the `http.ResponseWriter`. -/
structure Reply where
  status : Nat
  body : Body
deriving DecidableEq, Repr

/-- What `command.process.Process.Kill()` does: returns nil, returns an error, or
dereferences a nil `Process` (the child has not been started). -/
inductive KillOutcome where
  | ok
  | error (msg : String)
  | nilProcess
deriving DecidableEq, Repr

/-- Everything a handler does: the reply (`none` when the handler panicked and the
server dropped the connection), the registry it leaves, how often it invoked
`Process.Kill`, and the key it passed to `go handleCommand`. -/
structure Effect where
  reply : Option Reply
  db : DB
  kills : Nat
  spawned : Option String

/-! ## Machine arithmetic and time -/

/-- Two's complement wrap of an integer to `int64`. -/
def wrapInt64 (x : Int) : Int :=
  (x + 9223372036854775808) % 18446744073709551616 - 9223372036854775808

/-- The constant `time.Second`, in nanoseconds. -/
def Second : Int := 1000000000

/-- The expression `time.Duration(n) * time.Second`. -/
def secondsDuration (n : Int) : Int :=
  wrapInt64 (wrapInt64 n * Second)

/-- The method `Time.Add`. -/
def Time.Add (t : Time) (d : Int) : Time := t + d

/-- The method `Time.Compare`. -/
def Time.Compare (t u : Time) : Int :=
  if t < u then -1 else if u < t then 1 else 0

/-! ## The runner `handleCommand` -/

/-- Lines 59 to 66 of `handleCommand`: the command is built from the record and the
handle is installed.  `none` is the nil dereference on a missing record. -/
def handleCommandStart (db : DB) (key : String) : Option DB :=
  match db.lookup key with
  | none => none
  | some r =>
    let command : Cmd := { Path := r.Command, Args := r.Args }
    some (db.insert key { r with process := some command })

/-- Lines 69 to 77 of `handleCommand`, after `command.CombinedOutput()` has returned
`output` and `err` and with `code` the value of `command.ProcessState.ExitCode()`.
`none` is the nil dereference on a missing record. -/
def handleCommandFinish (db : DB) (key : String) (output : String) (err : Option String)
    (code : Int) (now : Time) : Option DB :=
  match db.lookup key with
  | none => none
  | some r =>
    let r1 : Execution := if err.isSome then { r with Killed := true } else r
    let r2 : Execution := { r1 with Output := output }
    let r3 : Execution := { r2 with Code := code }
    let r4 : Execution := { r3 with Ended := now }
    let r5 : Execution := { r4 with Terminated := true }
    some (db.insert key r5)

/-- How a run of the child under `exec.CommandContext` ends, as `os/exec` reports it on
a Unix system: the child exited on its own with a status (never negative), the context
deadline elapsed and the child was killed, the child was killed through
`Process.Kill`, or it could not be started. -/
inductive RunResult where
  | exited (code : Nat) (output : String)
  | timedOut (output : String)
  | killed (output : String)
  | startFailed (msg : String)
deriving DecidableEq, Repr

/-- First result of `CombinedOutput`: the captured output. -/
def RunResult.output : RunResult → String
  | .exited _ o => o
  | .timedOut o => o
  | .killed o => o
  | .startFailed _ => ""

/-- Second result of `CombinedOutput`: by the documentation of `os/exec` the error is nil
if the command runs and exits with a zero exit status, and an error otherwise. -/
def RunResult.err : RunResult → Option String
  | .exited c _ => if c = 0 then none else some ("exit status " ++ toString c)
  | .timedOut _ => some "signal: killed"
  | .killed _ => some "signal: killed"
  | .startFailed m => some m

/-- The value of `command.ProcessState.ExitCode()`: the exit status of a child that
exited, `-1` for a child ended by a signal and for a nil `ProcessState`. -/
def RunResult.ExitCode : RunResult → Int
  | .exited c _ => (c : Int)
  | .timedOut _ => -1
  | .killed _ => -1
  | .startFailed _ => -1

/-- The completion step of `handleCommand` for a given end of the run. -/
def handleCommandDone (db : DB) (key : String) (res : RunResult) (now : Time) : Option DB :=
  handleCommandFinish db key res.output res.err res.ExitCode now

/-! ## The request handlers -/

/-- The loop over `config.Programs` in `CommandRequest`, returning `found`. -/
def findProgram (command : String) : List String → Bool
  | [] => false
  | value :: rest => if command = value then true else findProgram command rest

/-- The handler `CommandRequest`; `body` is `none` when `json.Unmarshal` fails, `id` is
the string of `uuid.New()` and `now` the clock reading. -/
def CommandRequest (config : AppConfiguration) (db : DB) (body : Option CommandRequestBody)
    (id : String) (now : Time) : Effect :=
  match body with
  | none =>
    { reply := some ⟨500, .text "internal server error"⟩, db := db, kills := 0,
      spawned := none }
  | some bodyRequest =>
    if findProgram bodyRequest.Command config.Programs = false then
      { reply := some ⟨404, .text "command not found"⟩, db := db, kills := 0, spawned := none }
    else
      let exec : Execution :=
        { Command := bodyRequest.Command, Args := bodyRequest.Args, Output := "", Code := 0,
          Terminated := false, Killed := false, Started := now, Ended := 0, process := none }
      { reply := some ⟨200, .text id⟩, db := db.insert id exec, kills := 0, spawned := some id }

/-- The handler `CommandStatus`. -/
def CommandStatus (db : DB) (body : Option CommandStatusBody) : Effect :=
  match body with
  | none =>
    { reply := some ⟨500, .text "internal server error"⟩, db := db, kills := 0,
      spawned := none }
  | some bodyRequest =>
    match db.lookup bodyRequest.Key with
    | none =>
      { reply := some ⟨404, .text "command not found"⟩, db := db, kills := 0,
        spawned := none }
    | some command =>
      { reply := some ⟨200, .json command.snapshot⟩, db := db, kills := 0, spawned := none }

/-- The handler `CommandKill`; `kill` is what `Process.Kill` does if it is invoked. -/
def CommandKill (db : DB) (body : Option CommandKillBody) (kill : KillOutcome) (now : Time) :
    Effect :=
  match body with
  | none =>
    { reply := some ⟨500, .text "internal server error"⟩, db := db, kills := 0,
      spawned := none }
  | some bodyRequest =>
    match db.lookup bodyRequest.Key with
    | none =>
      { reply := some ⟨404, .text "command not found"⟩, db := db, kills := 0,
        spawned := none }
    | some command =>
      if command.Terminated || command.Killed || command.process.isNone then
        { reply := some ⟨200, .text "already killed"⟩, db := db, kills := 0, spawned := none }
      else
        match kill with
        | .nilProcess => { reply := none, db := db, kills := 1, spawned := none }
        | .error _ =>
          { reply := some ⟨500, .text "internal server error"⟩, db := db, kills := 1,
            spawned := none }
        | .ok =>
          let c1 : Execution := { command with Terminated := true }
          let c2 : Execution := { c1 with Killed := true }
          let c3 : Execution := { c2 with Ended := now }
          { reply := some ⟨200, .text "killed!"⟩, db := db.insert bodyRequest.Key c3,
            kills := 1, spawned := none }

/-! ## The sweeper `memoryCleaner` -/

/-- The condition of the `if` in `memoryCleaner`. -/
def evictable (config : AppConfiguration) (now : Time) (value : Execution) : Bool :=
  value.Terminated &&
    decide (Time.Compare (Time.Add value.Ended (secondsDuration config.CacheTime)) now < 0)

/-- One pass of the inner `for key, value := range InternalDB` of `memoryCleaner`;
`now key` is the reading of `time.Now()` in the iteration that visits `key`. -/
def memoryCleanerPass (config : AppConfiguration) (now : String → Time) (db : DB) : DB :=
  db.entries.foldl
    (fun acc kv => if evictable config (now kv.1) kv.2 then acc.erase kv.1 else acc) db

/-! ## Steps of the whole service -/

/-- One atomic step of the service, with everything the environment supplies to it. -/
inductive Action where
  | request (body : Option CommandRequestBody) (id : String) (now : Time)
  | runnerStart (key : String)
  | runnerFinish (key : String) (output : String) (err : Option String) (code : Int)
      (now : Time)
  | kill (body : Option CommandKillBody) (outcome : KillOutcome) (now : Time)
  | status (body : Option CommandStatusBody)
  | sweep (now : String → Time)

/-- The registry after one step; `none` when the goroutine `handleCommand` dereferences
nil, which ends the program. -/
def step (config : AppConfiguration) : Action → DB → Option DB
  | .request body id now, db => some (CommandRequest config db body id now).db
  | .runnerStart key, db => handleCommandStart db key
  | .runnerFinish key output err code now, db => handleCommandFinish db key output err code now
  | .kill body outcome now, db => some (CommandKill db body outcome now).db
  | .status body, db => some (CommandStatus db body).db
  | .sweep now, db => some (memoryCleanerPass config now db)

/-- The registry after a sequence of steps. -/
def run (config : AppConfiguration) : List Action → DB → Option DB
  | [], db => some db
  | a :: rest, db => (step config a db).bind (run config rest)

/-- The clock readings that a step stores in a record are not the zero time. -/
def Action.clockNonzero : Action → Bool
  | .request _ _ now => decide (now ≠ 0)
  | .runnerFinish _ _ _ _ now => decide (now ≠ 0)
  | .kill _ _ now => decide (now ≠ 0)
  | _ => true

/-- The identifier that `uuid.New()` hands to a submit step is not in use. -/
def Action.idFresh (db : DB) : Action → Bool
  | .request _ id _ => (db.lookup id).isNone
  | _ => true

/-- The step is the completion of the runner of `key`. -/
def Action.finishes (key : String) : Action → Bool
  | .runnerFinish k _ _ _ _ => decide (k = key)
  | _ => false

/-! ## Concrete registries used in the examples -/

/-- A configuration that allows `sleep` and `echo`, with no retention. -/
def exConfig : AppConfiguration :=
  { Timeout := 30, Programs := ["sleep", "echo"], CacheTime := 0 }

/-- A record as `CommandRequest` creates it for `sleep 100` at time `1000`. -/
def exPending : Execution :=
  { Command := "sleep", Args := ["100"], Output := "", Code := 0, Terminated := false,
    Killed := false, Started := 1000, Ended := 0, process := none }

/-- The record `exPending` after the runner has installed its handle. -/
def exRunning : Execution :=
  { exPending with process := some { Path := "sleep", Args := ["100"] } }

/-- A registry holding the running record under `"k1"`. -/
def exRunningDB : DB := (∅ : DB).insert "k1" exRunning

/-- A record that ended at time `2000`. -/
def exDone : Execution :=
  { Command := "echo", Args := ["hi"], Output := "hi\n", Code := 0, Terminated := true,
    Killed := false, Started := 1000, Ended := 2000,
    process := some { Path := "echo", Args := ["hi"] } }

/-- A registry holding the ended record under `"k2"`. -/
def exDoneDB : DB := (∅ : DB).insert "k2" exDone

/-- The registry after a successful `CommandKill` of `"k1"` at time `1500`. -/
def exKilledDB : DB := (CommandKill exRunningDB (some ⟨"k1"⟩) .ok 1500).db

/-- The running record as that `CommandKill` leaves it. -/
def exKilled : Execution :=
  { exRunning with Terminated := true, Killed := true, Ended := 1500 }

/-- The killed record after its runner has completed at time `1700` with the output
`"half"` of the killed child. -/
def exReaped : Execution :=
  { exKilled with Output := "half", Code := -1, Ended := 1700 }

/-- The running record after its child has exited with status 1 at time `2000`. -/
def exFailed : Execution :=
  { exRunning with Output := "boom", Code := 1, Ended := 2000, Terminated := true,
                   Killed := true }

/-- The steps of a submitted `sleep 100` that is killed at `1500` and swept at `1600`,
before its runner has completed. -/
def exKillSweep : List Action :=
  [.request (some ⟨"sleep", ["100"]⟩) "k1" 1000, .runnerStart "k1",
   .kill (some ⟨"k1"⟩) .ok 1500, .sweep (fun _ => 1600)]

/-- The steps of a submitted `echo hi` that runs to its end at `2000`. -/
def exEchoRun : List Action :=
  [.request (some ⟨"echo", ["hi"]⟩) "k2" 1000, .runnerStart "k2",
   .runnerFinish "k2" "hi\n" none 0 2000]

/-- A record is consistent when `Ended` is set exactly if it is terminated and a record
that is not terminated has no output. -/
def Execution.consistent (r : Execution) : Prop :=
  (r.Ended ≠ 0 ↔ r.Terminated = true) ∧ (r.Terminated = false → r.Output = "")

instance (r : Execution) : Decidable r.consistent := by
  unfold Execution.consistent
  infer_instance

/-- A configuration whose retention of `10000000000` seconds does not fit a
`time.Duration`. -/
def exBigConfig : AppConfiguration :=
  { Timeout := 30, Programs := ["sleep", "echo"], CacheTime := 10000000000 }

/-! ## Lookup lemmas for the sweep -/

/-- Lookup after the loop of `memoryCleaner` has run over a list of entries. -/
theorem lookup_foldl_erase (config : AppConfiguration) (now : String → Time)
    (l : List (Sigma fun _ : String => Execution)) (acc : DB) (k : String) :
    (l.foldl (fun acc kv => if evictable config (now kv.1) kv.2 then acc.erase kv.1 else acc)
        acc).lookup k =
      if (∃ kv ∈ l, kv.1 = k ∧ evictable config (now kv.1) kv.2 = true) then none
      else acc.lookup k := by
  induction l generalizing acc with
  | nil => simp
  | cons hd tl ih =>
    rw [List.foldl_cons, ih]
    by_cases htl : ∃ kv ∈ tl, kv.1 = k ∧ evictable config (now kv.1) kv.2 = true
    · have hall : ∃ kv ∈ hd :: tl, kv.1 = k ∧ evictable config (now kv.1) kv.2 = true := by
        obtain ⟨kv, hm, hk⟩ := htl
        exact ⟨kv, List.mem_cons_of_mem _ hm, hk⟩
      rw [if_pos htl, if_pos hall]
    · rw [if_neg htl]
      by_cases hev : evictable config (now hd.1) hd.2 = true
      · rw [if_pos hev]
        by_cases hk : hd.1 = k
        · have hall : ∃ kv ∈ hd :: tl, kv.1 = k ∧ evictable config (now kv.1) kv.2 = true :=
            ⟨hd, List.mem_cons_self _ _, hk, hev⟩
          rw [if_pos hall, ← hk, AList.lookup_erase]
        · have hall : ¬ ∃ kv ∈ hd :: tl, kv.1 = k ∧ evictable config (now kv.1) kv.2 = true := by
            rintro ⟨kv, hm, hkv, he⟩
            rcases List.mem_cons.1 hm with rfl | hm
            · exact hk hkv
            · exact htl ⟨kv, hm, hkv, he⟩
          rw [if_neg hall, AList.lookup_erase_ne (Ne.symm hk)]
      · rw [if_neg hev]
        have hall : ¬ ∃ kv ∈ hd :: tl, kv.1 = k ∧ evictable config (now kv.1) kv.2 = true := by
          rintro ⟨kv, hm, hkv, he⟩
          rcases List.mem_cons.1 hm with rfl | hm
          · exact hev he
          · exact htl ⟨kv, hm, hkv, he⟩
        rw [if_neg hall]

/-- One pass of the sweep keeps under `k` exactly the record that is not evictable at
the clock reading of its iteration. -/
theorem memoryCleanerPass_lookup (config : AppConfiguration) (now : String → Time) (db : DB)
    (k : String) :
    (memoryCleanerPass config now db).lookup k =
      match db.lookup k with
      | none => none
      | some v => if evictable config (now k) v = true then none else some v := by
  unfold memoryCleanerPass
  rw [lookup_foldl_erase]
  cases hl : db.lookup k with
  | none =>
    have hno : ¬ ∃ kv ∈ db.entries, kv.1 = k ∧ evictable config (now kv.1) kv.2 = true := by
      rintro ⟨⟨k1, v⟩, hm, hk, _⟩
      simp only at hk
      subst hk
      have hv : v ∈ db.lookup k1 := AList.mem_lookup_iff.2 hm
      rw [hl] at hv
      cases hv
    rw [if_neg hno]
  | some v =>
    have hm : (⟨k, v⟩ : Sigma fun _ : String => Execution) ∈ db.entries :=
      AList.mem_lookup_iff.1 (by rw [hl]; exact rfl)
    by_cases hev : evictable config (now k) v = true
    · have hyes : ∃ kv ∈ db.entries, kv.1 = k ∧ evictable config (now kv.1) kv.2 = true :=
        ⟨⟨k, v⟩, hm, rfl, hev⟩
      simp only [if_pos hyes, if_pos hev]
    · have hno : ¬ ∃ kv ∈ db.entries, kv.1 = k ∧ evictable config (now kv.1) kv.2 = true := by
        rintro ⟨⟨k1, v1⟩, hm1, hk, he⟩
        simp only at hk
        subst hk
        have h1 : v1 ∈ db.lookup k1 := AList.mem_lookup_iff.2 hm1
        rw [hl] at h1
        have : v = v1 := by simpa using h1
        subst this
        exact hev he
      simp only [if_neg hno, if_neg hev]

/-! ## Lookup lemmas for the handlers -/

/-- Lookup in a registry after a write under `key`. -/
theorem lookup_insert_eq_ite (db : DB) (key k : String) (e : Execution) :
    (db.insert key e).lookup k = if k = key then some e else db.lookup k := by
  by_cases h : k = key
  · subst h
    rw [if_pos rfl, AList.lookup_insert]
  · rw [if_neg h, AList.lookup_insert_ne h]

/-- The loop of `CommandRequest` finds the command exactly when it is in the list. -/
theorem findProgram_eq_true_iff (command : String) (programs : List String) :
    findProgram command programs = true ↔ command ∈ programs := by
  induction programs with
  | nil => simp [findProgram]
  | cons value rest ih =>
    unfold findProgram
    by_cases h : command = value
    · simp [h]
    · simp [h, ih]

/-- The registry that `CommandStatus` leaves is the one it got. -/
theorem CommandStatus_db (db : DB) (body : Option CommandStatusBody) :
    (CommandStatus db body).db = db := by
  unfold CommandStatus
  cases body with
  | none => rfl
  | some b =>
    simp only
    cases db.lookup b.Key <;> rfl

/-- The registry that `CommandRequest` leaves: unchanged, or with one new record. -/
theorem CommandRequest_db (config : AppConfiguration) (db : DB)
    (body : Option CommandRequestBody) (id : String) (now : Time) :
    (CommandRequest config db body id now).db = db ∨
      ∃ b, body = some b ∧ (CommandRequest config db body id now).db =
        db.insert id { Command := b.Command, Args := b.Args, Output := "", Code := 0,
                       Terminated := false, Killed := false, Started := now, Ended := 0,
                       process := none } := by
  unfold CommandRequest
  cases body with
  | none => exact Or.inl rfl
  | some b =>
    simp only
    by_cases h : findProgram b.Command config.Programs = false
    · rw [if_pos h]
      exact Or.inl rfl
    · rw [if_neg h]
      exact Or.inr ⟨b, rfl, rfl⟩

/-- The registry that `CommandKill` leaves: unchanged, or with the live record under the
key marked terminated and killed at `now`. -/
theorem CommandKill_db (db : DB) (body : Option CommandKillBody) (outcome : KillOutcome)
    (now : Time) :
    (CommandKill db body outcome now).db = db ∨
      ∃ b r, body = some b ∧ db.lookup b.Key = some r ∧ r.Terminated = false ∧
        r.Killed = false ∧ (CommandKill db body outcome now).db =
          db.insert b.Key { r with Terminated := true, Killed := true, Ended := now } := by
  unfold CommandKill
  cases body with
  | none => exact Or.inl rfl
  | some b =>
    simp only
    cases hl : db.lookup b.Key with
    | none => exact Or.inl rfl
    | some r =>
      simp only
      by_cases hg : (r.Terminated || r.Killed || r.process.isNone) = true
      · rw [if_pos hg]
        exact Or.inl rfl
      · rw [if_neg hg]
        cases outcome with
        | nilProcess => exact Or.inl rfl
        | error msg => exact Or.inl rfl
        | ok =>
          refine Or.inr ⟨b, r, rfl, hl, ?_, ?_, rfl⟩
          · cases ht : r.Terminated
            · rfl
            · exact absurd (by simp [ht]) hg
          · cases hk : r.Killed
            · rfl
            · exact absurd (by simp [hk]) hg

/-- The registry after the first part of the runner. -/
theorem handleCommandStart_eq (db db' : DB) (key : String)
    (h : handleCommandStart db key = some db') :
    ∃ r, db.lookup key = some r ∧
      db' = db.insert key { r with process := some { Path := r.Command, Args := r.Args } } := by
  unfold handleCommandStart at h
  cases hl : db.lookup key with
  | none => rw [hl] at h; cases h
  | some r =>
    rw [hl] at h
    simp only [Option.some.injEq] at h
    exact ⟨r, rfl, h.symm⟩

/-- The registry after the completion step of the runner. -/
theorem handleCommandFinish_eq (db : DB) (key : String) (output : String) (err : Option String)
    (code : Int) (now : Time) (r : Execution) (h : db.lookup key = some r) :
    handleCommandFinish db key output err code now =
      some (db.insert key { r with Killed := r.Killed || err.isSome, Output := output,
                                   Code := code, Ended := now, Terminated := true }) := by
  unfold handleCommandFinish
  rw [h]
  cases err with
  | none => simp
  | some e => simp

/-- The completion step of the runner returns exactly when the record is there. -/
theorem handleCommandFinish_some (db db' : DB) (key : String) (output : String)
    (err : Option String) (code : Int) (now : Time)
    (h : handleCommandFinish db key output err code now = some db') :
    ∃ r, db.lookup key = some r ∧
      db' = db.insert key { r with Killed := r.Killed || err.isSome, Output := output,
                                   Code := code, Ended := now, Terminated := true } := by
  cases hl : db.lookup key with
  | none =>
    unfold handleCommandFinish at h
    rw [hl] at h
    cases h
  | some r =>
    rw [handleCommandFinish_eq db key output err code now r hl] at h
    simp only [Option.some.injEq] at h
    exact ⟨r, rfl, h.symm⟩

/-! ## Submit -/

/-- Claim C5: for a decodable request `CommandRequest` answers 404 exactly when the
command is not in `config.Programs`, and then leaves `InternalDB` as it was and starts no
runner; for a listed command and an identifier not yet in use it answers 200 with the
identifier, starts the runner for it, and adds exactly one record under it, holding the
submitted command and arguments, not terminated, not killed, with empty output and no
process handle, while every other key keeps its record. -/
theorem commandRequest_whitelist (config : AppConfiguration) (db : DB)
    (b : CommandRequestBody) (id : String) (now : Time) :
    ((CommandRequest config db (some b) id now).reply =
        some ⟨404, .text "command not found"⟩ ↔ b.Command ∉ config.Programs) ∧
    (b.Command ∉ config.Programs →
      (CommandRequest config db (some b) id now).db = db ∧
      (CommandRequest config db (some b) id now).spawned = none ∧
      (CommandRequest config db (some b) id now).kills = 0) ∧
    (b.Command ∈ config.Programs → db.lookup id = none →
      (CommandRequest config db (some b) id now).reply = some ⟨200, .text id⟩ ∧
      (CommandRequest config db (some b) id now).spawned = some id ∧
      (CommandRequest config db (some b) id now).db.keys = id :: db.keys ∧
      (CommandRequest config db (some b) id now).db.lookup id =
        some { Command := b.Command, Args := b.Args, Output := "", Code := 0,
               Terminated := false, Killed := false, Started := now, Ended := 0,
               process := none } ∧
      ∀ k, k ≠ id → (CommandRequest config db (some b) id now).db.lookup k = db.lookup k) := by
  by_cases hmem : b.Command ∈ config.Programs
  · have hf : ¬ findProgram b.Command config.Programs = false := by
      rw [(findProgram_eq_true_iff _ _).2 hmem]
      decide
    have hE : CommandRequest config db (some b) id now =
        { reply := some ⟨200, .text id⟩,
          db := db.insert id { Command := b.Command, Args := b.Args, Output := "", Code := 0,
                               Terminated := false, Killed := false, Started := now,
                               Ended := 0, process := none },
          kills := 0, spawned := some id } := by
      unfold CommandRequest
      simp only [if_neg hf]
    rw [hE]
    refine ⟨⟨fun h => ?_, fun hn => absurd hmem hn⟩, fun hn => absurd hmem hn,
      fun _ hfresh => ⟨rfl, rfl, ?_, AList.lookup_insert _,
        fun k hk => AList.lookup_insert_ne hk⟩⟩
    · simp at h
    · have hnot : id ∉ db.keys := fun hin =>
        (AList.lookup_eq_none.1 hfresh) (AList.mem_keys.2 hin)
      rw [AList.keys_insert, List.erase_of_not_mem hnot]
  · have hf : findProgram b.Command config.Programs = false := by
      cases hfp : findProgram b.Command config.Programs
      · rfl
      · exact absurd ((findProgram_eq_true_iff _ _).1 hfp) hmem
    have hE : CommandRequest config db (some b) id now =
        { reply := some ⟨404, .text "command not found"⟩, db := db, kills := 0,
          spawned := none } := by
      unfold CommandRequest
      simp only [if_pos hf]
    rw [hE]
    exact ⟨⟨fun _ => hmem, fun _ => rfl⟩, fun _ => ⟨rfl, rfl, rfl⟩, fun hin => absurd hin hmem⟩

/-- Claim C5 at concrete requests: `rm` is refused and changes nothing, `echo hi` under
the unused identifier `k9` is stored next to the record that was there. -/
theorem commandRequest_whitelist_witness :
    ("rm" ∉ exConfig.Programs ∧
      (CommandRequest exConfig exDoneDB (some ⟨"rm", ["-rf"]⟩) "k9" 5000).db = exDoneDB ∧
      (CommandRequest exConfig exDoneDB (some ⟨"rm", ["-rf"]⟩) "k9" 5000).spawned = none) ∧
    ("echo" ∈ exConfig.Programs ∧ exDoneDB.lookup "k9" = none ∧
      (CommandRequest exConfig exDoneDB (some ⟨"echo", ["hi"]⟩) "k9" 5000).reply =
        some ⟨200, .text "k9"⟩ ∧
      (CommandRequest exConfig exDoneDB (some ⟨"echo", ["hi"]⟩) "k9" 5000).db.keys =
        ["k9", "k2"]) :=
  ⟨⟨by decide,
      ((commandRequest_whitelist exConfig exDoneDB ⟨"rm", ["-rf"]⟩ "k9" 5000).2.1
        (by decide)).1,
      ((commandRequest_whitelist exConfig exDoneDB ⟨"rm", ["-rf"]⟩ "k9" 5000).2.1
        (by decide)).2.1⟩,
    ⟨by decide, by decide,
      ((commandRequest_whitelist exConfig exDoneDB ⟨"echo", ["hi"]⟩ "k9" 5000).2.2
        (by decide) (by decide)).1,
      ((commandRequest_whitelist exConfig exDoneDB ⟨"echo", ["hi"]⟩ "k9" 5000).2.2
        (by decide) (by decide)).2.2.1⟩⟩

/-! ## Kill -/

/-- The outcomes of `CommandKill` whenever the termination call returns: 404 for an
absent key; 200 "already killed" for a record that is terminated, or killed, or has no
process handle; otherwise it invokes the termination once and answers 500 when that
returns an error and 200 "killed!" when it succeeds.  The registry is unchanged in the first three cases, no termination is invoked
in the first two, and on success only the record under the key changes, to terminated,
killed and ended at `now`. -/
theorem commandKill_outcome (db : DB) (key : String) (now : Time) :
    (db.lookup key = none → ∀ outcome,
      (CommandKill db (some ⟨key⟩) outcome now).reply =
        some ⟨404, .text "command not found"⟩ ∧
      (CommandKill db (some ⟨key⟩) outcome now).db = db ∧
      (CommandKill db (some ⟨key⟩) outcome now).kills = 0) ∧
    (∀ r, db.lookup key = some r →
      (r.Terminated = true ∨ r.Killed = true ∨ r.process = none) → ∀ outcome,
      (CommandKill db (some ⟨key⟩) outcome now).reply = some ⟨200, .text "already killed"⟩ ∧
      (CommandKill db (some ⟨key⟩) outcome now).db = db ∧
      (CommandKill db (some ⟨key⟩) outcome now).kills = 0) ∧
    (∀ r, db.lookup key = some r →
      ¬ (r.Terminated = true ∨ r.Killed = true ∨ r.process = none) →
      (∀ msg,
        (CommandKill db (some ⟨key⟩) (.error msg) now).reply =
          some ⟨500, .text "internal server error"⟩ ∧
        (CommandKill db (some ⟨key⟩) (.error msg) now).db = db ∧
        (CommandKill db (some ⟨key⟩) (.error msg) now).kills = 1) ∧
      (CommandKill db (some ⟨key⟩) .ok now).reply = some ⟨200, .text "killed!"⟩ ∧
      (CommandKill db (some ⟨key⟩) .ok now).kills = 1 ∧
      (CommandKill db (some ⟨key⟩) .ok now).db.keys = key :: db.keys.erase key ∧
      (CommandKill db (some ⟨key⟩) .ok now).db.lookup key =
        some { r with Terminated := true, Killed := true, Ended := now } ∧
      ∀ k, k ≠ key → (CommandKill db (some ⟨key⟩) .ok now).db.lookup k = db.lookup k) := by
  refine ⟨fun hnone outcome => ?_, fun r hr hg outcome => ?_, fun r hr hg => ?_⟩
  · have hE : CommandKill db (some ⟨key⟩) outcome now =
        { reply := some ⟨404, .text "command not found"⟩, db := db, kills := 0,
          spawned := none } := by
      unfold CommandKill
      simp only [hnone]
    rw [hE]
    exact ⟨rfl, rfl, rfl⟩
  · have hg' : (r.Terminated || r.Killed || r.process.isNone) = true := by
      rcases hg with h | h | h <;> simp [h]
    have hE : CommandKill db (some ⟨key⟩) outcome now =
        { reply := some ⟨200, .text "already killed"⟩, db := db, kills := 0,
          spawned := none } := by
      unfold CommandKill
      simp only [hr, if_pos hg']
    rw [hE]
    exact ⟨rfl, rfl, rfl⟩
  · have hg' : ¬ (r.Terminated || r.Killed || r.process.isNone) = true := by
      intro h
      apply hg
      simp only [Bool.or_eq_true, Option.isNone_iff_eq_none] at h
      rcases h with (h | h) | h
      · exact Or.inl h
      · exact Or.inr (Or.inl h)
      · exact Or.inr (Or.inr h)
    have hErr : ∀ msg, CommandKill db (some ⟨key⟩) (.error msg) now =
        { reply := some ⟨500, .text "internal server error"⟩, db := db, kills := 1,
          spawned := none } := by
      intro msg
      unfold CommandKill
      simp only [hr, if_neg hg']
    have hOk : CommandKill db (some ⟨key⟩) .ok now =
        { reply := some ⟨200, .text "killed!"⟩,
          db := db.insert key { r with Terminated := true, Killed := true, Ended := now },
          kills := 1, spawned := none } := by
      unfold CommandKill
      simp only [hr, if_neg hg']
    rw [hOk]
    refine ⟨fun msg => ?_, rfl, rfl, AList.keys_insert _, AList.lookup_insert _,
      fun k hk => AList.lookup_insert_ne hk⟩
    rw [hErr msg]
    exact ⟨rfl, rfl, rfl⟩

/-- The outcomes of `CommandKill` at concrete registries: an absent key, an ended
record, and a running record whose termination fails or succeeds. -/
theorem commandKill_outcome_witness :
    (exDoneDB.lookup "k1" = none ∧
      (CommandKill exDoneDB (some ⟨"k1"⟩) .ok 1500).reply =
        some ⟨404, .text "command not found"⟩) ∧
    (exDoneDB.lookup "k2" = some exDone ∧ exDone.Terminated = true ∧
      (CommandKill exDoneDB (some ⟨"k2"⟩) .ok 1500).reply =
        some ⟨200, .text "already killed"⟩) ∧
    (exRunningDB.lookup "k1" = some exRunning ∧
      (CommandKill exRunningDB (some ⟨"k1"⟩) (.error "os: process already finished")
        1500).reply = some ⟨500, .text "internal server error"⟩ ∧
      (CommandKill exRunningDB (some ⟨"k1"⟩) .ok 1500).db.lookup "k1" =
        some { exRunning with Terminated := true, Killed := true, Ended := 1500 }) :=
  ⟨⟨by decide, ((commandKill_outcome exDoneDB "k1" 1500).1 (by decide) .ok).1⟩,
    ⟨by decide, by decide,
      ((commandKill_outcome exDoneDB "k2" 1500).2.1 exDone (by decide)
        (Or.inl (by decide)) .ok).1⟩,
    ⟨by decide,
      (((commandKill_outcome exRunningDB "k1" 1500).2.2 exRunning (by decide)
        (by decide)).1 "os: process already finished").1,
      ((commandKill_outcome exRunningDB "k1" 1500).2.2 exRunning (by decide)
        (by decide)).2.2.2.2.1⟩⟩

/-- Claim C6 fails on the code: `sleep 100` is submitted under `k1` and its runner
installs the process handle; the record is not terminated, not killed and has a handle,
so `CommandKill` passes its guard and invokes the termination, but the child is not
started yet, `Process` is nil, and the handler panics: it sends no reply at all, neither
the 500 of a failed termination nor the 200 of a kill, and leaves the registry as it
was. -/
theorem commandKill_nil_process :
    run exConfig [.request (some ⟨"sleep", ["100"]⟩) "k1" 1000, .runnerStart "k1"] ∅ =
      some exRunningDB ∧
    exRunningDB.lookup "k1" = some exRunning ∧ exRunning.Terminated = false ∧
    exRunning.Killed = false ∧ exRunning.process ≠ none ∧
    (CommandKill exRunningDB (some ⟨"k1"⟩) .nilProcess 1500).reply = none ∧
    (CommandKill exRunningDB (some ⟨"k1"⟩) .nilProcess 1500).kills = 1 ∧
    (CommandKill exRunningDB (some ⟨"k1"⟩) .nilProcess 1500).db = exRunningDB :=
  ⟨rfl, by decide, by decide, by decide, by decide, by decide, by decide, rfl⟩

/-- Claim C4: on a running record with a process handle whose termination succeeds, the
first `CommandKill` answers 200 "killed!" after one termination call, and every
`CommandKill` on the same key right after it answers 200 "already killed", invokes no
termination and returns the registry of the first call. -/
theorem commandKill_twice (db : DB) (key : String) (r : Execution) (now1 now2 : Time)
    (outcome2 : KillOutcome) (hr : db.lookup key = some r) (ht : r.Terminated = false)
    (hk : r.Killed = false) (hp : r.process ≠ none) :
    (CommandKill db (some ⟨key⟩) .ok now1).reply = some ⟨200, .text "killed!"⟩ ∧
    (CommandKill db (some ⟨key⟩) .ok now1).kills = 1 ∧
    (CommandKill (CommandKill db (some ⟨key⟩) .ok now1).db (some ⟨key⟩) outcome2 now2).reply =
      some ⟨200, .text "already killed"⟩ ∧
    (CommandKill (CommandKill db (some ⟨key⟩) .ok now1).db (some ⟨key⟩) outcome2 now2).kills =
      0 ∧
    (CommandKill (CommandKill db (some ⟨key⟩) .ok now1).db (some ⟨key⟩) outcome2 now2).db =
      (CommandKill db (some ⟨key⟩) .ok now1).db := by
  have hg : ¬ (r.Terminated || r.Killed || r.process.isNone) = true := by
    simp [ht, hk, hp]
  have h1 : CommandKill db (some ⟨key⟩) .ok now1 =
      { reply := some ⟨200, .text "killed!"⟩,
        db := db.insert key { r with Terminated := true, Killed := true, Ended := now1 },
        kills := 1, spawned := none } := by
    unfold CommandKill
    simp only [hr, if_neg hg]
  have h2 : CommandKill
      (db.insert key { r with Terminated := true, Killed := true, Ended := now1 })
      (some ⟨key⟩) outcome2 now2 =
      { reply := some ⟨200, .text "already killed"⟩,
        db := db.insert key { r with Terminated := true, Killed := true, Ended := now1 },
        kills := 0, spawned := none } := by
    unfold CommandKill
    simp only [AList.lookup_insert, Bool.true_or, Bool.or_true, if_true]
  rw [h1, h2]
  exact ⟨rfl, rfl, rfl, rfl, rfl⟩

/-- Claim C4 at the running record `k1`, killed at `1500` and again at `1600`. -/
theorem commandKill_twice_witness :
    exRunningDB.lookup "k1" = some exRunning ∧
    (CommandKill exRunningDB (some ⟨"k1"⟩) .ok 1500).reply = some ⟨200, .text "killed!"⟩ ∧
    (CommandKill (CommandKill exRunningDB (some ⟨"k1"⟩) .ok 1500).db (some ⟨"k1"⟩) .ok
      1600).reply = some ⟨200, .text "already killed"⟩ ∧
    (CommandKill (CommandKill exRunningDB (some ⟨"k1"⟩) .ok 1500).db (some ⟨"k1"⟩) .ok
      1600).kills = 0 :=
  ⟨by decide,
    (commandKill_twice exRunningDB "k1" exRunning 1500 1600 .ok (by decide) (by decide)
      (by decide) (by decide)).1,
    (commandKill_twice exRunningDB "k1" exRunning 1500 1600 .ok (by decide) (by decide)
      (by decide) (by decide)).2.2.1,
    (commandKill_twice exRunningDB "k1" exRunning 1500 1600 .ok (by decide) (by decide)
      (by decide) (by decide)).2.2.2.1⟩

/-! ## Eviction -/

/-- A value in the range of `int64` is its own wrap. -/
theorem wrapInt64_of_fits (x : Int) (hlo : -9223372036854775808 ≤ x)
    (hhi : x < 9223372036854775808) : wrapInt64 x = x := by
  unfold wrapInt64
  omega

/-- A number of seconds within `9223372036` converts to a duration without wrapping. -/
theorem secondsDuration_of_fits (n : Int) (hlo : -9223372036 ≤ n) (hhi : n ≤ 9223372036) :
    secondsDuration n = n * Second := by
  unfold secondsDuration Second
  rw [wrapInt64_of_fits n (by omega) (by omega)]
  exact wrapInt64_of_fits _ (by omega) (by omega)

/-- The condition of the sweep, as a comparison of instants. -/
theorem evictable_iff (config : AppConfiguration) (now : Time) (value : Execution) :
    evictable config now value = true ↔
      value.Terminated = true ∧ value.Ended + secondsDuration config.CacheTime < now := by
  unfold evictable Time.Compare Time.Add
  simp only [Bool.and_eq_true, decide_eq_true_eq]
  constructor
  · rintro ⟨ht, hc⟩
    refine ⟨ht, ?_⟩
    by_contra hlt
    rw [if_neg hlt] at hc
    split at hc <;> omega
  · rintro ⟨ht, hlt⟩
    refine ⟨ht, ?_⟩
    rw [if_pos hlt]
    decide

/-- Eviction within the range of `time.Duration`: with a retention of at most
`9223372036` seconds in absolute value, one pass of the loop body of
`memoryCleaner` removes a record exactly when it is terminated and `Ended` plus
`CacheTime` seconds is strictly before the clock reading taken at that record; so a
record that is not terminated stays whatever its age, a terminated record stays until
the retention has elapsed, every record that stays is unchanged, and no key is added. -/
theorem memoryCleaner_eviction (config : AppConfiguration) (now : String → Time) (db : DB)
    (hlo : -9223372036 ≤ config.CacheTime) (hhi : config.CacheTime ≤ 9223372036) :
    (∀ key, db.lookup key = none → (memoryCleanerPass config now db).lookup key = none) ∧
    (∀ key r, db.lookup key = some r →
      ((memoryCleanerPass config now db).lookup key = none ↔
        (r.Terminated = true ∧ r.Ended + config.CacheTime * Second < now key)) ∧
      (r.Terminated = false → (memoryCleanerPass config now db).lookup key = some r) ∧
      (now key ≤ r.Ended + config.CacheTime * Second →
        (memoryCleanerPass config now db).lookup key = some r) ∧
      ((memoryCleanerPass config now db).lookup key = none ∨
        (memoryCleanerPass config now db).lookup key = some r)) := by
  refine ⟨fun key hnone => ?_, fun key r hr => ?_⟩
  · rw [memoryCleanerPass_lookup, hnone]
  · have hev := evictable_iff config (now key) r
    rw [secondsDuration_of_fits _ hlo hhi] at hev
    rw [memoryCleanerPass_lookup, hr]
    simp only
    by_cases he : evictable config (now key) r = true
    · rw [if_pos he]
      have hc := hev.1 he
      refine ⟨⟨fun _ => hc, fun _ => rfl⟩, fun hf => ?_, fun hle => ?_, Or.inl rfl⟩
      · rw [hc.1] at hf
        cases hf
      · exact absurd hc.2 (not_lt.2 hle)
    · rw [if_neg he]
      refine ⟨⟨fun h => ?_, fun hc => absurd (hev.2 hc) he⟩, fun _ => rfl, fun _ => rfl,
        Or.inr rfl⟩
      cases h

/-- Eviction at a retention of 0 seconds: the record that ended at `2000` goes in a pass
at `3000` and stays, unchanged, in a pass at `2000`. -/
theorem memoryCleaner_eviction_witness :
    exDoneDB.lookup "k2" = some exDone ∧
    ((memoryCleanerPass exConfig (fun _ => 3000) exDoneDB).lookup "k2" = none ↔
      (exDone.Terminated = true ∧ exDone.Ended + exConfig.CacheTime * Second < 3000)) ∧
    (memoryCleanerPass exConfig (fun _ => 2000) exDoneDB).lookup "k2" = some exDone :=
  ⟨by decide,
    ((memoryCleaner_eviction exConfig (fun _ => 3000) exDoneDB (by decide) (by decide)).2
      "k2" exDone (by decide)).1,
    ((memoryCleaner_eviction exConfig (fun _ => 2000) exDoneDB (by decide) (by decide)).2
      "k2" exDone (by decide)).2.2.1 (by decide)⟩

/-- Claim C3 fails on the code: with `CacheTime = 10000000000` the product
`time.Duration(config.CacheTime) * time.Second` wraps to `-8446744073709551616`
nanoseconds, and the terminated record that ended at `2000` is removed by a pass at
`3000`, although `Ended` plus `CacheTime` seconds is not before `3000`: the entry is
not kept for `CacheTime` seconds, as the claim and the comment above the loop say. -/
theorem memoryCleaner_eviction_overflow :
    exDoneDB.lookup "k2" = some exDone ∧ exDone.Terminated = true ∧
    secondsDuration exBigConfig.CacheTime = -8446744073709551616 ∧
    (memoryCleanerPass exBigConfig (fun _ => 3000) exDoneDB).lookup "k2" = none ∧
    ¬ (exDone.Ended + exBigConfig.CacheTime * Second < 3000) ∧
    ¬ ((memoryCleanerPass exBigConfig (fun _ => 3000) exDoneDB).lookup "k2" = none ↔
      (exDone.Terminated = true ∧ exDone.Ended + exBigConfig.CacheTime * Second < 3000)) := by
  decide

/-! ## What one step does to one record -/

/-- A record that is present before and after a step is unchanged, or got its process
handle from the start of its runner, or was completed by its runner, or was live and
got killed by `CommandKill`. -/
theorem step_lookup (config : AppConfiguration) (a : Action) (db db' : DB) (key : String)
    (r r' : Execution) (hstep : step config a db = some db') (hfresh : a.idFresh db = true)
    (hr : db.lookup key = some r) (hr' : db'.lookup key = some r') :
    r' = r ∨
    r' = { r with process := some { Path := r.Command, Args := r.Args } } ∨
    (a.finishes key = true ∧
      ∃ (output : String) (err : Option String) (code : Int) (now : Time),
        r' = { r with Killed := r.Killed || err.isSome, Output := output, Code := code,
                      Ended := now, Terminated := true }) ∨
    (r.Terminated = false ∧ r.Killed = false ∧ ∃ now,
      r' = { r with Terminated := true, Killed := true, Ended := now }) := by
  cases a with
  | request body id now =>
    simp only [step, Option.some.injEq] at hstep
    subst hstep
    rcases CommandRequest_db config db body id now with h | ⟨b, _, h⟩
    · rw [h, hr] at hr'
      exact Or.inl (Option.some.inj hr').symm
    · rw [h, lookup_insert_eq_ite] at hr'
      by_cases hk : key = id
      · subst hk
        simp only [Action.idFresh, hr, Option.isNone_some] at hfresh
        cases hfresh
      · rw [if_neg hk, hr] at hr'
        exact Or.inl (Option.some.inj hr').symm
  | runnerStart k =>
    simp only [step] at hstep
    obtain ⟨r0, hr0, hdb⟩ := handleCommandStart_eq db db' k hstep
    subst hdb
    rw [lookup_insert_eq_ite] at hr'
    by_cases hk : key = k
    · subst hk
      rw [hr] at hr0
      cases hr0
      rw [if_pos rfl] at hr'
      exact Or.inr (Or.inl (Option.some.inj hr').symm)
    · rw [if_neg hk, hr] at hr'
      exact Or.inl (Option.some.inj hr').symm
  | runnerFinish k output err code now =>
    simp only [step] at hstep
    obtain ⟨r0, hr0, hdb⟩ := handleCommandFinish_some db db' k output err code now hstep
    subst hdb
    rw [lookup_insert_eq_ite] at hr'
    by_cases hk : key = k
    · subst hk
      rw [hr] at hr0
      cases hr0
      rw [if_pos rfl] at hr'
      refine Or.inr (Or.inr (Or.inl ⟨?_, output, err, code, now, (Option.some.inj hr').symm⟩))
      simp [Action.finishes]
    · rw [if_neg hk, hr] at hr'
      exact Or.inl (Option.some.inj hr').symm
  | kill body outcome now =>
    simp only [step, Option.some.injEq] at hstep
    subst hstep
    rcases CommandKill_db db body outcome now with h | ⟨b, r0, _, hr0, ht, hkl, h⟩
    · rw [h, hr] at hr'
      exact Or.inl (Option.some.inj hr').symm
    · rw [h, lookup_insert_eq_ite] at hr'
      by_cases hk : key = b.Key
      · subst hk
        rw [hr] at hr0
        cases hr0
        rw [if_pos rfl] at hr'
        exact Or.inr (Or.inr (Or.inr ⟨ht, hkl, now, (Option.some.inj hr').symm⟩))
      · rw [if_neg hk, hr] at hr'
        exact Or.inl (Option.some.inj hr').symm
  | status body =>
    simp only [step, Option.some.injEq] at hstep
    subst hstep
    rw [CommandStatus_db, hr] at hr'
    exact Or.inl (Option.some.inj hr').symm
  | sweep now =>
    simp only [step, Option.some.injEq] at hstep
    subst hstep
    rw [memoryCleanerPass_lookup, hr] at hr'
    simp only at hr'
    by_cases he : evictable config (now key) r = true
    · rw [if_pos he] at hr'
      cases hr'
    · rw [if_neg he] at hr'
      exact Or.inl (Option.some.inj hr').symm

/-! ## Lifecycle of a record -/

/-- Claim C7: across every step (submit under an unused identifier, start and completion
of a runner, `CommandKill`, `CommandStatus`, sweep) a record that is present before and
after keeps `Terminated = true` and keeps `Killed = true`; and the completion of the
runner of a killed record returns and leaves it killed and terminated, whatever output,
error and exit code the process invocation reports. -/
theorem lifecycle_monotonic (config : AppConfiguration) (a : Action) (db db' : DB)
    (key : String) (r r' : Execution) (hstep : step config a db = some db')
    (hfresh : a.idFresh db = true) (hr : db.lookup key = some r)
    (hr' : db'.lookup key = some r') :
    (r.Terminated = true → r'.Terminated = true) ∧
    (r.Killed = true → r'.Killed = true) ∧
    (r.Killed = true → ∀ (output : String) (err : Option String) (code : Int) (now : Time),
      ∃ db2 r2, handleCommandFinish db key output err code now = some db2 ∧
        db2.lookup key = some r2 ∧ r2.Killed = true ∧ r2.Terminated = true) := by
  refine ⟨fun ht => ?_, fun hk => ?_, fun hk output err code now => ?_⟩
  · rcases step_lookup config a db db' key r r' hstep hfresh hr hr' with
      h | h | ⟨_, _, _, _, _, h⟩ | ⟨hf, _, _⟩
    · rw [h]; exact ht
    · rw [h]; exact ht
    · rw [h]
    · rw [ht] at hf; cases hf
  · rcases step_lookup config a db db' key r r' hstep hfresh hr hr' with
      h | h | ⟨_, _, _, _, _, h⟩ | ⟨_, hf, _⟩
    · rw [h]; exact hk
    · rw [h]; exact hk
    · rw [h]; simp [hk]
    · rw [hk] at hf; cases hf
  · refine ⟨_, _, handleCommandFinish_eq db key output err code now r hr,
      AList.lookup_insert _, ?_, rfl⟩
    simp [hk]

/-- Claim C7 at the record killed at `1500`: its runner completes at `1700` reporting no
error and exit code 0, and the record is still killed. -/
theorem lifecycle_monotonic_witness :
    step exConfig (.runnerFinish "k1" "" none 0 1700) exKilledDB =
      some (exKilledDB.insert "k1" { exKilled with Ended := 1700 }) ∧
    exKilledDB.lookup "k1" = some exKilled ∧
    (exKilled.Killed = true → ({ exKilled with Ended := 1700 } : Execution).Killed = true) :=
  ⟨rfl, by decide,
    (lifecycle_monotonic exConfig (.runnerFinish "k1" "" none 0 1700) exKilledDB
      (exKilledDB.insert "k1" { exKilled with Ended := 1700 }) "k1" exKilled
      { exKilled with Ended := 1700 } rfl (by decide) (by decide) (by decide)).2.1⟩

/-- Claim C1, as the code has it: once a record is terminated, every step other than the
completion of its own runner (submit under an unused identifier, start of a runner,
completion of the runner of another record, `CommandKill`, `CommandStatus`, sweep) leaves
its `Output`, `Code` and `Ended` as they were while it is still in the registry. -/
theorem terminal_fields_kept (config : AppConfiguration) (a : Action) (db db' : DB)
    (key : String) (r r' : Execution) (hstep : step config a db = some db')
    (hfresh : a.idFresh db = true) (hother : a.finishes key = false)
    (hr : db.lookup key = some r) (hterm : r.Terminated = true)
    (hr' : db'.lookup key = some r') :
    r'.Output = r.Output ∧ r'.Code = r.Code ∧ r'.Ended = r.Ended := by
  rcases step_lookup config a db db' key r r' hstep hfresh hr hr' with
    h | h | ⟨hf, _⟩ | ⟨hf, _, _⟩
  · rw [h]; exact ⟨rfl, rfl, rfl⟩
  · rw [h]; exact ⟨rfl, rfl, rfl⟩
  · rw [hother] at hf; cases hf
  · rw [hterm] at hf; cases hf

/-- Claim C1 at the record killed at `1500`: a submit of `echo hi` under `k9` at `1600`
leaves its output, code and end time. -/
theorem terminal_fields_kept_witness :
    step exConfig (.request (some ⟨"echo", ["hi"]⟩) "k9" 1600) exKilledDB =
      some (CommandRequest exConfig exKilledDB (some ⟨"echo", ["hi"]⟩) "k9" 1600).db ∧
    exKilledDB.lookup "k1" = some exKilled ∧ exKilled.Terminated = true ∧
    (CommandRequest exConfig exKilledDB (some ⟨"echo", ["hi"]⟩) "k9" 1600).db.lookup "k1" =
      some exKilled ∧
    (exKilled.Output = exKilled.Output ∧ exKilled.Code = exKilled.Code ∧
      exKilled.Ended = exKilled.Ended) :=
  ⟨rfl, by decide, by decide, by decide,
    terminal_fields_kept exConfig (.request (some ⟨"echo", ["hi"]⟩) "k9" 1600) exKilledDB
      (CommandRequest exConfig exKilledDB (some ⟨"echo", ["hi"]⟩) "k9" 1600).db "k1"
      exKilled exKilled rfl (by decide) (by decide) (by decide) (by decide) (by decide)⟩

/-- Claim C1 fails as stated: `CommandKill` at `1500` makes the running record
terminated with `Ended = 1500`, code 0 and no output, and the completion of its runner
at `1700` then writes the output `"half"`, the code `-1` and `Ended = 1700` into it. -/
theorem kill_then_finish_rewrites :
    exKilledDB.lookup "k1" = some exKilled ∧ exKilled.Terminated = true ∧
    (handleCommandDone exKilledDB "k1" (.killed "half") 1700).map
      (fun d => d.lookup "k1") = some (some exReaped) ∧
    exReaped.Output ≠ exKilled.Output ∧ exReaped.Code ≠ exKilled.Code ∧
    exReaped.Ended ≠ exKilled.Ended := by
  decide

/-! ## Completion of the runner -/

/-- Claim C2, as the code has it: for a record in the registry that was not killed and
whose child exits on its own with status `c`, the completion step of `handleCommand`
returns and leaves the record terminated with `Code = c`, `Output` the captured output
and `Ended` the clock reading, every other key untouched; `Killed` stays false exactly
when `c = 0`, and is set for every other status. -/
theorem handleCommand_exit (db : DB) (key : String) (r : Execution) (c : Nat)
    (out : String) (now : Time) (hr : db.lookup key = some r) (hk : r.Killed = false) :
    ∃ db' r', handleCommandDone db key (.exited c out) now = some db' ∧
      db'.lookup key = some r' ∧ r'.Terminated = true ∧ r'.Code = (c : Int) ∧
      r'.Output = out ∧ r'.Ended = now ∧ (r'.Killed = false ↔ c = 0) ∧
      (∀ k, k ≠ key → db'.lookup k = db.lookup k) := by
  refine ⟨_, _, handleCommandFinish_eq db key _ _ _ now r hr, AList.lookup_insert _, rfl, rfl,
    rfl, rfl, ?_, fun k hne => AList.lookup_insert_ne hne⟩
  by_cases hc : c = 0
  · simp [RunResult.err, hc, hk]
  · simp [RunResult.err, hc, hk]

/-- Claim C2 at the running record `k1` whose child prints `done` and exits with status 0
at `2000`. -/
theorem handleCommand_exit_witness :
    exRunningDB.lookup "k1" = some exRunning ∧ exRunning.Killed = false ∧
    ∃ db' r', handleCommandDone exRunningDB "k1" (.exited 0 "done") 2000 = some db' ∧
      db'.lookup "k1" = some r' ∧ r'.Terminated = true ∧ r'.Code = ((0 : Nat) : Int) ∧
      r'.Output = "done" ∧ r'.Ended = 2000 ∧ (r'.Killed = false ↔ (0 : Nat) = 0) ∧
      (∀ k, k ≠ "k1" → db'.lookup k = exRunningDB.lookup k) :=
  ⟨by decide, by decide,
    handleCommand_exit exRunningDB "k1" exRunning 0 "done" 2000 (by decide) (by decide)⟩

/-- Claim C2 fails as stated: the child of the running record `k1`, which nobody
killed, exits on its own with status 1, within the deadline, and the completion step
leaves the record with `Killed = true`. -/
theorem handleCommand_exit_one_killed :
    exRunningDB.lookup "k1" = some exRunning ∧ exRunning.Killed = false ∧
    (handleCommandDone exRunningDB "k1" (.exited 1 "boom") 2000).map
      (fun d => d.lookup "k1") = some (some exFailed) ∧
    exFailed.Terminated = true ∧ exFailed.Code = 1 ∧ exFailed.Killed = true := by
  decide

/-- Claim C9, as the code has it: for a live record that was not killed and whose
deadline elapses before the child exits, the completion step of `handleCommand` returns
and leaves the record terminated and killed with `Code = -1` and the captured output.
That is the registry an external `CommandKill` followed by the completion of the runner
leaves, so `CommandStatus` answers the same for both; a child that exits on its own
leaves another `Code`. -/
theorem handleCommand_timeout (db : DB) (key : String) (r : Execution) (out : String)
    (now : Time) (hr : db.lookup key = some r) (ht : r.Terminated = false)
    (hk : r.Killed = false) :
    ∃ db' r', handleCommandDone db key (.timedOut out) now = some db' ∧
      db'.lookup key = some r' ∧ r'.Terminated = true ∧ r'.Killed = true ∧
      r'.Code = -1 ∧ r'.Output = out ∧ r'.Ended = now ∧
      (∀ tkill, r.process ≠ none →
        handleCommandDone (CommandKill db (some ⟨key⟩) .ok tkill).db key (.killed out) now =
          some db') ∧
      (∀ body tkill, r.process ≠ none →
        (handleCommandDone (CommandKill db (some ⟨key⟩) .ok tkill).db key (.killed out)
            now).map (fun d => (CommandStatus d body).reply) =
          some (CommandStatus db' body).reply) ∧
      (∀ (c : Nat) (o : String) db2 r2,
        handleCommandDone db key (.exited c o) now = some db2 → db2.lookup key = some r2 →
        r2.Code ≠ r'.Code) := by
  have hdone : handleCommandDone db key (.timedOut out) now =
      some (db.insert key { r with Killed := true, Output := out, Code := -1, Ended := now,
                                   Terminated := true }) := by
    unfold handleCommandDone
    rw [handleCommandFinish_eq db key _ _ _ now r hr]
    simp [RunResult.err, RunResult.output, RunResult.ExitCode]
  have hkill : ∀ tkill, r.process ≠ none →
      handleCommandDone (CommandKill db (some ⟨key⟩) .ok tkill).db key (.killed out) now =
        some (db.insert key { r with Killed := true, Output := out, Code := -1, Ended := now,
                                     Terminated := true }) := by
    intro tkill hp
    have hg : ¬ (r.Terminated || r.Killed || r.process.isNone) = true := by
      simp [ht, hk, hp]
    have h1 : CommandKill db (some ⟨key⟩) .ok tkill =
        { reply := some ⟨200, .text "killed!"⟩,
          db := db.insert key { r with Terminated := true, Killed := true, Ended := tkill },
          kills := 1, spawned := none } := by
      unfold CommandKill
      simp only [hr, if_neg hg]
    rw [h1]
    unfold handleCommandDone
    rw [handleCommandFinish_eq _ key _ _ _ now _ (AList.lookup_insert _)]
    simp [RunResult.err, RunResult.output, RunResult.ExitCode, AList.insert_insert]
  refine ⟨_, _, hdone, AList.lookup_insert _, rfl, rfl, rfl, rfl, rfl, hkill, ?_, ?_⟩
  · intro body tkill hp
    rw [hkill tkill hp]
    rfl
  · intro c o db2 r2 h2 hl2
    unfold handleCommandDone at h2
    rw [handleCommandFinish_eq db key _ _ _ now r hr] at h2
    simp only [Option.some.injEq] at h2
    subst h2
    rw [AList.lookup_insert] at hl2
    simp only [Option.some.injEq] at hl2
    subst hl2
    simp only [RunResult.ExitCode]
    omega

/-- Claim C9 at the running record `k1`, timed out at `31000` with the output `"zz"`. -/
theorem handleCommand_timeout_witness :
    exRunningDB.lookup "k1" = some exRunning ∧ exRunning.Terminated = false ∧
    exRunning.Killed = false ∧
    ∃ db' r', handleCommandDone exRunningDB "k1" (.timedOut "zz") 31000 = some db' ∧
      db'.lookup "k1" = some r' ∧ r'.Terminated = true ∧ r'.Killed = true ∧
      r'.Code = -1 ∧ r'.Output = "zz" ∧ r'.Ended = 31000 ∧
      (∀ tkill, exRunning.process ≠ none →
        handleCommandDone (CommandKill exRunningDB (some ⟨"k1"⟩) .ok tkill).db "k1"
          (.killed "zz") 31000 = some db') ∧
      (∀ body tkill, exRunning.process ≠ none →
        (handleCommandDone (CommandKill exRunningDB (some ⟨"k1"⟩) .ok tkill).db "k1"
            (.killed "zz") 31000).map (fun d => (CommandStatus d body).reply) =
          some (CommandStatus db' body).reply) ∧
      (∀ (c : Nat) (o : String) db2 r2,
        handleCommandDone exRunningDB "k1" (.exited c o) 31000 = some db2 →
        db2.lookup "k1" = some r2 → r2.Code ≠ r'.Code) :=
  ⟨by decide, by decide, by decide,
    handleCommand_timeout exRunningDB "k1" exRunning "zz" 31000 (by decide) (by decide)
      (by decide)⟩

/-- Claim C9 fails as stated: the status reply for the record `k1` after its deadline
has elapsed at `31000`, with no external kill, is the status reply for the same record
after an external `CommandKill` at `1500` and the completion of its runner at `31000`:
terminated, killed, code `-1`. -/
theorem status_timeout_same_as_kill :
    (handleCommandDone exRunningDB "k1" (.timedOut "") 31000).map
        (fun d => (CommandStatus d (some ⟨"k1"⟩)).reply) =
      (handleCommandDone (CommandKill exRunningDB (some ⟨"k1"⟩) .ok 1500).db "k1"
          (.killed "") 31000).map (fun d => (CommandStatus d (some ⟨"k1"⟩)).reply) ∧
    (handleCommandDone exRunningDB "k1" (.timedOut "") 31000).map
        (fun d => (CommandStatus d (some ⟨"k1"⟩)).reply) =
      some (some ⟨200, .json { Command := "sleep", Args := ["100"], Output := "",
                               Code := -1, Terminated := true, Killed := true,
                               Started := 1000, Ended := 31000 }⟩) := by
  decide

/-! ## Consistency of what `CommandStatus` returns -/

/-- A step whose clock readings are not the zero time keeps every record consistent. -/
theorem step_consistent (config : AppConfiguration) (a : Action) (db db' : DB)
    (hinv : ∀ k r, db.lookup k = some r → r.consistent)
    (hclock : a.clockNonzero = true) (hstep : step config a db = some db') :
    ∀ k r, db'.lookup k = some r → r.consistent := by
  intro k r' hr'
  cases a with
  | request body id now =>
    simp only [step, Option.some.injEq] at hstep
    subst hstep
    rcases CommandRequest_db config db body id now with h | ⟨b, _, h⟩
    · rw [h] at hr'
      exact hinv k r' hr'
    · rw [h, lookup_insert_eq_ite] at hr'
      by_cases hk : k = id
      · rw [if_pos hk] at hr'
        rw [← Option.some.inj hr']
        exact ⟨⟨fun h0 => absurd rfl h0, fun h0 => by cases h0⟩, fun _ => rfl⟩
      · rw [if_neg hk] at hr'
        exact hinv k r' hr'
  | runnerStart key =>
    simp only [step] at hstep
    obtain ⟨r0, hr0, hdb⟩ := handleCommandStart_eq db db' key hstep
    subst hdb
    rw [lookup_insert_eq_ite] at hr'
    by_cases hk : k = key
    · rw [if_pos hk] at hr'
      rw [← Option.some.inj hr']
      exact hinv key r0 hr0
    · rw [if_neg hk] at hr'
      exact hinv k r' hr'
  | runnerFinish key output err code now =>
    simp only [step] at hstep
    obtain ⟨r0, _, hdb⟩ := handleCommandFinish_some db db' key output err code now hstep
    subst hdb
    rw [lookup_insert_eq_ite] at hr'
    by_cases hk : k = key
    · rw [if_pos hk] at hr'
      rw [← Option.some.inj hr']
      have hnow : now ≠ 0 := by simpa [Action.clockNonzero] using hclock
      exact ⟨⟨fun _ => rfl, fun _ => hnow⟩, fun h0 => by cases h0⟩
    · rw [if_neg hk] at hr'
      exact hinv k r' hr'
  | kill body outcome now =>
    simp only [step, Option.some.injEq] at hstep
    subst hstep
    rcases CommandKill_db db body outcome now with h | ⟨b, r0, _, _, _, _, h⟩
    · rw [h] at hr'
      exact hinv k r' hr'
    · rw [h, lookup_insert_eq_ite] at hr'
      by_cases hk : k = b.Key
      · rw [if_pos hk] at hr'
        rw [← Option.some.inj hr']
        have hnow : now ≠ 0 := by simpa [Action.clockNonzero] using hclock
        exact ⟨⟨fun _ => rfl, fun _ => hnow⟩, fun h0 => by cases h0⟩
      · rw [if_neg hk] at hr'
        exact hinv k r' hr'
  | status body =>
    simp only [step, Option.some.injEq] at hstep
    subst hstep
    rw [CommandStatus_db] at hr'
    exact hinv k r' hr'
  | sweep now =>
    simp only [step, Option.some.injEq] at hstep
    subst hstep
    rw [memoryCleanerPass_lookup] at hr'
    cases hl : db.lookup k with
    | none =>
      rw [hl] at hr'
      cases hr'
    | some r =>
      rw [hl] at hr'
      simp only at hr'
      by_cases he : evictable config (now k) r = true
      · rw [if_pos he] at hr'
        cases hr'
      · rw [if_neg he] at hr'
        rw [← Option.some.inj hr']
        exact hinv k r hl

/-- Every record of a registry reached by steps with non-zero clock readings from a
registry of consistent records is consistent. -/
theorem run_consistent (config : AppConfiguration) (acts : List Action) (db db' : DB)
    (hinv : ∀ k r, db.lookup k = some r → r.consistent)
    (hclock : ∀ a ∈ acts, a.clockNonzero = true) (hrun : run config acts db = some db') :
    ∀ k r, db'.lookup k = some r → r.consistent := by
  induction acts generalizing db with
  | nil =>
    simp only [run, Option.some.injEq] at hrun
    subst hrun
    exact hinv
  | cons a rest ih =>
    simp only [run] at hrun
    cases hs : step config a db with
    | none =>
      rw [hs] at hrun
      cases hrun
    | some db1 =>
      rw [hs] at hrun
      exact ih db1
        (step_consistent config a db db1 hinv (hclock a (List.mem_cons_self _ _)) hs)
        (fun x hx => hclock x (List.mem_cons_of_mem _ hx)) hrun

/-- Claim C8: in every registry reached from the empty one by atomic steps (submit,
start and completion of a runner, `CommandKill`, `CommandStatus`, sweep) whose stored
clock readings are not the zero time, every record that `CommandStatus` returns has
`Ended` set exactly if it is terminated, and has empty output if it is not terminated. -/
theorem status_snapshot_consistent (config : AppConfiguration) (acts : List Action)
    (db : DB) (key : String) (s : Snapshot)
    (hclock : ∀ a ∈ acts, a.clockNonzero = true) (hrun : run config acts ∅ = some db)
    (hs : (CommandStatus db (some ⟨key⟩)).reply = some ⟨200, .json s⟩) :
    (s.Ended ≠ 0 ↔ s.Terminated = true) ∧ (s.Terminated = false → s.Output = "") := by
  have hall := run_consistent config acts ∅ db
    (fun k r h => by rw [AList.lookup_empty] at h; cases h) hclock hrun
  unfold CommandStatus at hs
  simp only at hs
  cases hl : db.lookup key with
  | none =>
    rw [hl] at hs
    simp at hs
  | some r =>
    rw [hl] at hs
    simp only [Option.some.injEq, Reply.mk.injEq, Body.json.injEq, true_and] at hs
    subst hs
    exact hall key r hl

/-- Claim C8 at a submitted `echo hi` that has run to its end: the status reply is a
terminated record with `Ended = 2000`. -/
theorem status_snapshot_consistent_witness :
    (∀ a ∈ exEchoRun, a.clockNonzero = true) ∧
    (run exConfig exEchoRun ∅).map (fun d => (CommandStatus d (some ⟨"k2"⟩)).reply) =
      some (some ⟨200, .json exDone.snapshot⟩) ∧
    (exDone.snapshot.Ended ≠ 0 ↔ exDone.snapshot.Terminated = true) :=
  ⟨by decide, by decide,
    (status_snapshot_consistent exConfig exEchoRun exDoneDB "k2" exDone.snapshot
      (by decide) rfl (by decide)).1⟩

/-! ## The runner and the sweep -/

/-- Claim C10 fails on the code: `sleep 100` is submitted under `k1` and its runner is
started; `CommandKill` at `1500` marks the record terminated; with `CacheTime = 0` the
sweep at `1600` removes it; the runner, which has not yet done its completion writes,
then dereferences the missing record, for every result of the process invocation. -/
theorem runner_finish_after_evict :
    (CommandRequest exConfig ∅ (some ⟨"sleep", ["100"]⟩) "k1" 1000).spawned = some "k1" ∧
    (run exConfig exKillSweep ∅).map (fun d => d.lookup "k1") = some none ∧
    run exConfig exKillSweep ∅ = some ∅ ∧
    (∀ (output : String) (err : Option String) (code : Int) (now : Time),
      handleCommandFinish ∅ "k1" output err code now = none) ∧
    run exConfig (exKillSweep ++ [.runnerFinish "k1" "" (some "signal: killed") (-1) 1700])
      ∅ = none := by
  refine ⟨by decide, by decide, rfl, fun _ _ _ _ => rfl, rfl⟩

end WebShell
